import Mathlib

/-!
# StoryVerse hybrid recommendation engine — verification development

Shallow embedding of `ai-services/src/recommendation/collaborative_filter.py`
(classes `CollaborativeFilter`, `ContentBasedFilter`, `HybridRecommendationEngine`)
together with the cosine-similarity primitive the filters share.

Modelling conventions:
* Python floats are embedded as exact rationals `ℚ` (the similarity primitive,
  which takes square roots, is embedded over `ℝ`).
* `user_id` / `book_id` values (opaque strings in the source, ordered
  lexicographically by pandas) are embedded as `ℕ` with its linear order.
* Python exceptions are embedded as an explicit error type `PyErr` and
  fallible methods return `Except PyErr _`.
* A method dispatching on untrained state (`self.user_item_matrix is None`,
  `self.book_features is None`) takes an `Option`-wrapped model state.
* `TruncatedSVD(random_state=42).fit_transform` followed by
  `cosine_similarity` is a deterministic function of the training data; it is
  embedded as an explicit function argument `simF` of the training step, so
  theorems below quantify over every matrix it could produce.
* Python's `list.sort(key=..., reverse=True)` is a stable descending sort,
  embedded with `List.mergeSort` (stable) on the reversed comparison.
* The class `SocialMediaAnalyzer` used by `HybridRecommendationEngine` does
  not exist in the repository sources; its recommender is carried as an
  opaque function field (see `HybridEngine`), modelled from the spec.
-/

namespace StoryVerse

/-- Python exception kinds raised by the recommendation code paths:
`ValueError("Model not trained yet")`, the `KeyError` raised by
`pandas.Index.get_loc` on a missing key, and the `AttributeError` raised by
attribute access on `None`. -/
inductive PyErr where
  | valueError : PyErr
  | keyError : PyErr
  | attributeError : PyErr
deriving DecidableEq, Repr

/-- One row of the `ratings_data` DataFrame: columns `[user_id, book_id, rating]`. -/
structure RatingRow where
  userId : ℕ
  bookId : ℕ
  rating : ℚ
deriving DecidableEq, Repr

/-- An entry of the list built by `CollaborativeFilter.get_user_recommendations`
(`{'book_id': ..., 'predicted_rating': ..., 'recommendation_type': 'collaborative'}`). -/
structure CollabRec where
  bookId : ℕ
  predictedRating : ℚ
deriving DecidableEq, Repr

/-- Trained state of a `CollaborativeFilter`:
`user_item_matrix` (its row index, column index and cells) and the
`user_similarity` matrix computed from the SVD factors.
`rating i b` is the matrix cell at row *position* `i` (as used by `.iloc`)
and column label `b`. -/
structure CFState where
  users : List ℕ
  books : List ℕ
  rating : ℕ → ℕ → ℚ
  userSim : ℕ → ℕ → ℚ

/-- The distinct values of a label column, sorted ascending — what pandas
`pivot` uses as an axis index. -/
def sortedDedup (l : List ℕ) : List ℕ :=
  (l.dedup).insertionSort (· ≤ ·)

/-- Row index of the pivoted matrix: pandas `pivot` sorts the distinct
`user_id` values ascending. -/
def pivotUsers (data : List RatingRow) : List ℕ :=
  sortedDedup (data.map RatingRow.userId)

/-- Column index of the pivoted matrix: the distinct `book_id` values,
sorted ascending. -/
def pivotBooks (data : List RatingRow) : List ℕ :=
  sortedDedup (data.map RatingRow.bookId)

/-- Cell of the pivoted matrix at row position `i`, column label `b`:
the rating given by the `i`-th user for book `b`, with missing cells filled
by `fillna(0)`.  (pandas `pivot` rejects duplicate `(user, book)` pairs;
duplicates are caller error per the data model, and `find?` takes the first
occurrence.) -/
def pivotCell (data : List RatingRow) (us : List ℕ) (i : ℕ) (b : ℕ) : ℚ :=
  match data.find? (fun r => r.userId = us.getD i 0 ∧ r.bookId = b) with
  | some r => r.rating
  | none => 0

/-- `CollaborativeFilter.train`: pivot the ratings into the user–item matrix,
run the (seeded, deterministic) truncated SVD and take cosine similarities of
the user factors.  The SVD+cosine composite is the explicit argument `simF`;
the previous model state is ignored — every field is rebuilt from
`ratings_data` alone. -/
def trainCF (simF : List RatingRow → ℕ → ℕ → ℚ) (_old : Option CFState)
    (data : List RatingRow) : Option CFState :=
  some { users := pivotUsers data
         books := pivotBooks data
         rating := fun i b => pivotCell data (pivotUsers data) i b
         userSim := simF data }

/-- Stable descending sort by a rational key: Python's
`list.sort(key=..., reverse=True)` (Python's sort is stable; so is
`insertionSort`, which inserts each element before the equal-key elements
coming later in the list). -/
def sortDescBy {α : Type} (f : α → ℚ) (l : List α) : List α :=
  l.insertionSort (fun a b => f b ≤ f a)

/-- `CollaborativeFilter.get_similar_users`: indices sorted by descending
similarity to `userIdx`, the first (the most similar, presumed self) dropped,
truncated to `top_k`, paired with their similarities. -/
def getSimilarUsers (s : CFState) (userIdx : ℕ) (topK : ℕ) : List (ℕ × ℚ) :=
  let sorted := sortDescBy (fun i => s.userSim userIdx i) (List.range s.users.length)
  ((sorted.drop 1).take topK).map (fun i => (i, s.userSim userIdx i))

/-- `CollaborativeFilter.predict_rating`: similarity-weighted average of the
neighbours' ratings of `bookId`, restricted to neighbours with a stored
rating `> 0`; returns `0` when the accumulated `similarity_sum` is `0`. -/
def predictRating (s : CFState) (bookId : ℕ) (simUsers : List (ℕ × ℚ)) : ℚ :=
  let acc := simUsers.foldl
    (fun (acc : ℚ × ℚ) p =>
      let r := s.rating p.1 bookId
      if 0 < r then (acc.1 + p.2 * r, acc.2 + |p.2|) else acc)
    (0, 0)
  if acc.2 = 0 then 0 else acc.1 / acc.2

/-- `CollaborativeFilter.get_user_recommendations`: `ValueError` when the
model is untrained, `KeyError` (from `index.get_loc`) when `user_id` is not a
row of the matrix; otherwise predict a rating for every book the user has not
rated (cell `= 0`), sort descending by predicted rating (stable) and truncate
to `n`. -/
def getUserRecommendations (m : Option CFState) (userId : ℕ) (n : ℕ) :
    Except PyErr (List CollabRec) :=
  match m with
  | none => .error .valueError
  | some s =>
    if userId ∈ s.users then
      let userIdx := s.users.indexOf userId
      let simUsers := getSimilarUsers s userIdx 50
      let recs := (s.books.filter (fun b => s.rating userIdx b = 0)).map
        (fun b => { bookId := b, predictedRating := predictRating s b simUsers : CollabRec })
      .ok ((sortDescBy CollabRec.predictedRating recs).take n)
    else .error .keyError

/-- A catalog row of `books_data` after `set_index('book_id')`: the index
value plus the `author` and `genre` columns read by
`calculate_content_score` (`title`/`description` feed only the TF-IDF text,
which is abstracted into the similarity matrix). -/
structure Book where
  id : ℕ
  author : String
  genre : String
deriving DecidableEq, Repr

/-- Trained state of a `ContentBasedFilter`: `book_features` (the catalog
rows, in input order — `set_index` keeps the row order) and the
`content_similarity` matrix indexed by row positions.  The matrix is the
cosine similarity of the TF-IDF vectors, abstracted as a function. -/
structure CBState where
  books : List Book
  sim : ℕ → ℕ → ℚ

/-- The caller-supplied `user_profile` dictionary. -/
structure Profile where
  preferredGenres : List String
  favoriteAuthors : List String
  readingHistory : List ℕ
deriving DecidableEq, Repr

/-- An entry of the list built by `ContentBasedFilter.get_content_recommendations`. -/
structure ContentRec where
  bookId : ℕ
  contentScore : ℚ
deriving DecidableEq, Repr

/-- Position of book id `b` in the catalog index (`index.get_loc`). -/
def bookIdx (s : CBState) (b : ℕ) : ℕ :=
  (s.books.map Book.id).indexOf b

/-- `ContentBasedFilter.calculate_content_score`: `0.4` if the book's genre
is a preferred genre, plus `0.3` if its author is a favourite author, plus —
when `reading_history` is non-empty — `0.3 ·` the running maximum (started
at `0`) of the content similarity between this book and each history book
that exists in the catalog index. -/
def calculateContentScore (s : CBState) (book : Book) (p : Profile) : ℚ :=
  let genreScore : ℚ := if book.genre ∈ p.preferredGenres then 2/5 else 0
  let authorScore : ℚ := if book.author ∈ p.favoriteAuthors then 3/10 else 0
  let historyScore : ℚ :=
    if p.readingHistory.isEmpty then 0
    else
      let maxSim := p.readingHistory.foldl
        (fun (m : ℚ) h =>
          if h ∈ s.books.map Book.id then max m (s.sim (bookIdx s book.id) (bookIdx s h))
          else m)
        0
      3/10 * maxSim
  genreScore + authorScore + historyScore

/-- `ContentBasedFilter.get_content_recommendations`: on an untrained model,
iterating `None.iterrows()` raises `AttributeError` (there is no trained-state
check); otherwise score every catalog book not in `reading_history`, sort
descending by score (stable) and truncate to `n`. -/
def getContentRecommendations (m : Option CBState) (p : Profile) (n : ℕ) :
    Except PyErr (List ContentRec) :=
  match m with
  | none => .error .attributeError
  | some s =>
    let recs := (s.books.filter (fun b => b.id ∉ p.readingHistory)).map
      (fun b => { bookId := b.id, contentScore := calculateContentScore s b p : ContentRec })
    .ok ((sortDescBy ContentRec.contentScore recs).take n)

/-- An entry of the social recommendation list consumed by
`combine_recommendations` (field `social_score`). -/
structure SocialRec where
  bookId : ℕ
  socialScore : ℚ
deriving DecidableEq, Repr

/-- An entry of the list built by
`HybridRecommendationEngine.combine_recommendations`. -/
structure HybridRec where
  bookId : ℕ
  combinedScore : ℚ
deriving DecidableEq, Repr

/-- Insertion-ordered dictionary update, as on a Python `dict`:
an existing key keeps its position, a new key is appended. -/
def dictSet : List (ℕ × ℚ) → ℕ → ℚ → List (ℕ × ℚ)
  | [], k, v => [(k, v)]
  | (k', v') :: rest, k, v =>
    if k' = k then (k', v) :: rest else (k', v') :: dictSet rest k v

/-- `dict.get(k, 0)`. -/
def dictGet (d : List (ℕ × ℚ)) (k : ℕ) : ℚ :=
  ((d.find? (fun p => p.1 = k)).map Prod.snd).getD 0

/-- One weighting pass of `combine_recommendations`:
`book_scores[book_id] = book_scores.get(book_id, 0) + w * score` for each
entry of one input list. -/
def accumulate (w : ℚ) (d : List (ℕ × ℚ)) (items : List (ℕ × ℚ)) : List (ℕ × ℚ) :=
  items.foldl (fun d it => dictSet d it.1 (dictGet d it.1 + w * it.2)) d

/-- `HybridRecommendationEngine.combine_recommendations`: accumulate
`0.4 · predicted_rating + 0.35 · content_score + 0.25 · social_score` per
`book_id` into the insertion-ordered `book_scores` dictionary, then sort the
entries descending by combined score (stable). -/
def combineRecommendations (collab : List CollabRec) (content : List ContentRec)
    (social : List SocialRec) : List HybridRec :=
  let d := accumulate (2/5) [] (collab.map (fun r => (r.bookId, r.predictedRating)))
  let d := accumulate (7/20) d (content.map (fun r => (r.bookId, r.contentScore)))
  let d := accumulate (1/4) d (social.map (fun r => (r.bookId, r.socialScore)))
  sortDescBy HybridRec.combinedScore
    (d.map (fun p => { bookId := p.1, combinedScore := p.2 : HybridRec }))

/-- Modelled from the spec: the class `SocialMediaAnalyzer` whose
`get_social_recommendations` the hybrid engine calls is missing from the
repository sources (only this caller references it).  §4.4 specifies the
social channel as a pure, stateless scorer producing per-item social scores,
so it is embedded as an arbitrary pure function of the profile and the
requested count. -/
def SocialRecommender : Type :=
  Profile → ℕ → List SocialRec

/-- State of a `HybridRecommendationEngine`: the two trainable filters plus
the social channel (see `SocialRecommender`). -/
structure HybridEngine where
  collaborativeFilter : Option CFState
  contentFilter : Option CBState
  socialRecs : SocialRecommender

/-- `HybridRecommendationEngine.get_recommendations`: request `2·n`
candidates from each channel in order (an exception from a sub-call
propagates — there is no `try`/`except`), combine the three lists, truncate
to `n`. -/
def getRecommendations (e : HybridEngine) (userId : ℕ) (p : Profile) (n : ℕ) :
    Except PyErr (List HybridRec) :=
  match getUserRecommendations e.collaborativeFilter userId (n * 2) with
  | .error err => .error err
  | .ok collab =>
    match getContentRecommendations e.contentFilter p (n * 2) with
    | .error err => .error err
    | .ok content =>
      let social := e.socialRecs p (n * 2)
      .ok ((combineRecommendations collab content social).take n)

/-! Concrete states used to instantiate the theorems below. -/

/-- A concrete stand-in for the seeded SVD+cosine composite (any such
function realises a trained similarity matrix in this embedding). -/
def exSimF : List RatingRow → ℕ → ℕ → ℚ :=
  fun _ _ _ => 1

/-- A concrete ratings table: one user who rated book 1 with 5 and book 3
with 0 (the source conflates a 0 rating with "unrated", §9 of the design). -/
def exData : List RatingRow :=
  [⟨1, 1, 5⟩, ⟨1, 3, 0⟩]

/-- The trained collaborative state over `exData` (what `trainCF` builds). -/
def exCFState : CFState :=
  { users := pivotUsers exData
    books := pivotBooks exData
    rating := fun i b => pivotCell exData (pivotUsers exData) i b
    userSim := exSimF exData }

/-- A trained collaborative model over `exData`. -/
def exCF : Option CFState :=
  trainCF exSimF none exData

/-- A trained content model: a one-book catalog. -/
def exCB : CBState :=
  { books := [⟨1, "a", "g"⟩], sim := fun _ _ => 0 }

/-- A profile whose reading history contains book 3. -/
def exProfile : Profile :=
  ⟨[], [], [3]⟩

/-- A hybrid engine over the trained states, with a social channel that
reports no matching signal. -/
def exEngine : HybridEngine :=
  ⟨exCF, some exCB, fun _ _ => []⟩

/-- The ratings table of the rank-1 training scenario in §8 of the design. -/
def exData2 : List RatingRow :=
  [⟨1, 1, 5⟩, ⟨1, 2, 1⟩, ⟨2, 1, 4⟩, ⟨2, 3, 5⟩]

/-- A two-book content model with a nonzero similarity matrix. -/
def exCB2 : CBState :=
  { books := [⟨1, "a", "Romance"⟩, ⟨2, "b", "Horror"⟩]
    sim := fun i j => if i = j then 1 else 1/2 }

/-- A profile preferring genre `Romance` by author `b`, history `[1]`. -/
def exProfile2 : Profile :=
  ⟨["Romance"], ["b"], [1]⟩

/-- Dot product of two real vectors (`sklearn` works on equal-dimension
rows; `zipWith` truncates to the common prefix, so no length side condition
is needed for the lemmas below). -/
def dotR (a b : List ℝ) : ℝ :=
  (List.zipWith (· * ·) a b).sum

/-- Squared Euclidean norm of a vector. -/
def sqNorm (a : List ℝ) : ℝ := dotR a a

/-- The divisor used by sklearn's row normalisation: a zero norm is replaced
by `1`, so zero rows are left untouched instead of dividing by zero. -/
noncomputable def safeNorm (a : List ℝ) : ℝ :=
  if sqNorm a = 0 then 1 else Real.sqrt (sqNorm a)

/-- `sklearn.metrics.pairwise.cosine_similarity` on one pair of rows:
normalise each row (with the zero-norm guard) and take the dot product. -/
noncomputable def cosineSim (a b : List ℝ) : ℝ :=
  dotR a b / (safeNorm a * safeNorm b)

/-! ## Helper lemmas -/

theorem sortDescBy_perm {α : Type} (f : α → ℚ) (l : List α) :
    List.Perm (sortDescBy f l) l :=
  List.perm_insertionSort _ l

theorem mem_sortDescBy {α : Type} {f : α → ℚ} {l : List α} {x : α} :
    x ∈ sortDescBy f l ↔ x ∈ l := by
  unfold sortDescBy
  exact List.mem_insertionSort _

theorem length_sortDescBy {α : Type} (f : α → ℚ) (l : List α) :
    (sortDescBy f l).length = l.length :=
  List.length_insertionSort _ l

theorem sortDescBy_sorted {α : Type} (f : α → ℚ) (l : List α) :
    (sortDescBy f l).Pairwise (fun a b => f b ≤ f a) := by
  haveI : IsTotal α (fun a b => f b ≤ f a) := ⟨fun a b => le_total (f b) (f a)⟩
  haveI : IsTrans α (fun a b => f b ≤ f a) := ⟨fun _ _ _ hab hbc => le_trans hbc hab⟩
  exact List.sorted_insertionSort _ l

/-- A duplicate-free list cannot contain the same two distinct elements in
both orders. -/
theorem pair_sublist_asymm {α : Type} {a b : α} :
    ∀ {l : List α}, l.Nodup → a ≠ b →
      List.Sublist [a, b] l → List.Sublist [b, a] l → False := by
  intro l
  induction l with
  | nil => intro _ _ h _; exact absurd h (by simp)
  | cons c t ih =>
    intro hnd hne h1 h2
    have hct := List.nodup_cons.mp hnd
    cases h1 with
    | cons _ h1' =>
      cases h2 with
      | cons _ h2' => exact ih hct.2 hne h1' h2'
      | cons₂ _ h2' => exact hct.1 (h1'.subset (by simp))
    | cons₂ _ h1' =>
      cases h2 with
      | cons _ h2' => exact hct.1 (h2'.subset (by simp))
      | cons₂ _ h2' => exact hne rfl

/-- Any two distinct members of a list occur in one of the two orders as a
length-two sublist. -/
theorem pair_sublist_of_mem {α : Type} {a b : α} :
    ∀ {l : List α}, a ∈ l → b ∈ l → a ≠ b →
      List.Sublist [a, b] l ∨ List.Sublist [b, a] l := by
  intro l
  induction l with
  | nil => intro h; exact absurd h (by simp)
  | cons c t ih =>
    intro ha hb hne
    rcases List.mem_cons.mp ha with rfl | ha'
    · have hb' : b ∈ t := by
        rcases List.mem_cons.mp hb with rfl | h
        · exact absurd rfl hne
        · exact h
      exact Or.inl ((List.singleton_sublist.mpr hb').cons₂ a)
    · rcases List.mem_cons.mp hb with rfl | hb'
      · exact Or.inr ((List.singleton_sublist.mpr ha').cons₂ b)
      · rcases ih ha' hb' hne with h | h
        · exact Or.inl (h.cons c)
        · exact Or.inr (h.cons c)

/-- Stability of the descending sort: on input whose `g`-keys are strictly
increasing, equal-`f`-key elements stay in input order, so the output is
pairwise ordered by "strictly larger `f`, or equal `f` and smaller `g`". -/
theorem sortDescBy_pairwise_tiebreak {α : Type} (f : α → ℚ) (g : α → ℕ)
    {l : List α} (hids : l.Pairwise (fun a b => g a < g b)) :
    (sortDescBy f l).Pairwise (fun a b => f b < f a ∨ (f a = f b ∧ g a < g b)) := by
  have hnd : l.Nodup := hids.imp (fun {a b} hab => by
    intro e; subst e; exact lt_irrefl _ hab)
  have hperm : List.Perm (sortDescBy f l) l := sortDescBy_perm f l
  have hnd' : (sortDescBy f l).Nodup := hperm.nodup_iff.mpr hnd
  have hsorted := sortDescBy_sorted f l
  rw [List.pairwise_iff_forall_sublist]
  intro a b hab
  have hfle : f b ≤ f a := List.pairwise_iff_forall_sublist.mp hsorted hab
  rcases lt_or_eq_of_le hfle with hlt | heq
  · exact Or.inl hlt
  · refine Or.inr ⟨heq.symm, ?_⟩
    have hane : a ≠ b := by
      have : ([a, b] : List α).Nodup := hnd'.sublist hab
      simpa using (List.nodup_cons.mp this).1
    have ha : a ∈ l := hperm.subset (hab.subset (by simp))
    have hb : b ∈ l := hperm.subset (hab.subset (by simp))
    by_contra hnot
    have hgne : g a ≠ g b := by
      intro e
      rcases pair_sublist_of_mem ha hb hane with h | h
      · exact absurd (List.pairwise_iff_forall_sublist.mp hids h) (by omega)
      · exact absurd (List.pairwise_iff_forall_sublist.mp hids h) (by omega)
    have hba : g b < g a := by omega
    have hsub : List.Sublist [b, a] l := by
      rcases pair_sublist_of_mem hb ha hane.symm with h | h
      · exact h
      · exact absurd (List.pairwise_iff_forall_sublist.mp hids h) (by omega)
    have hstable : List.Sublist [b, a] (sortDescBy f l) := by
      unfold sortDescBy
      exact List.pair_sublist_insertionSort heq.symm.le hsub
    exact pair_sublist_asymm hnd' hane hab hstable

/-- Unfolding the accumulator loop of `predict_rating`: it computes the
filtered weighted sum and the filtered absolute-similarity sum. -/
theorem predict_foldl (s : CFState) (b : ℕ) (l : List (ℕ × ℚ)) :
    ∀ x y : ℚ,
      l.foldl
          (fun (acc : ℚ × ℚ) p =>
            let r := s.rating p.1 b
            if 0 < r then (acc.1 + p.2 * r, acc.2 + |p.2|) else acc)
          (x, y)
        = (x + ((l.filter (fun p => 0 < s.rating p.1 b)).map
              (fun p => p.2 * s.rating p.1 b)).sum,
           y + ((l.filter (fun p => 0 < s.rating p.1 b)).map
              (fun p => |p.2|)).sum) := by
  induction l with
  | nil => intro x y; simp
  | cons p t ih =>
    intro x y
    by_cases h : 0 < s.rating p.1 b
    · rw [List.foldl_cons, List.filter_cons_of_pos (by simpa using h)]
      show List.foldl _ (if 0 < s.rating p.1 b then _ else _) t = _
      rw [if_pos h, ih, List.map_cons, List.sum_cons, List.map_cons, List.sum_cons,
        Prod.mk.injEq]
      constructor <;> ring
    · rw [List.foldl_cons, List.filter_cons_of_neg (by simpa using h)]
      show List.foldl _ (if 0 < s.rating p.1 b then _ else _) t = _
      rw [if_neg h, ih]

/-- A zero sum of absolute values forces every entry to be zero. -/
theorem absSum_eq_zero {l : List (ℕ × ℚ)}
    (h : ((l.map (fun p => |p.2|)).sum = 0)) : ∀ p ∈ l, p.2 = 0 := by
  induction l with
  | nil => intro p hp; exact absurd hp (by simp)
  | cons q t ih =>
    intro p hp
    simp only [List.map_cons, List.sum_cons] at h
    have h1 : (0:ℚ) ≤ |q.2| := abs_nonneg _
    have h2 : (0:ℚ) ≤ (t.map (fun p => |p.2|)).sum :=
      List.sum_nonneg (by
        intro x hx
        rcases List.mem_map.mp hx with ⟨p', _, rfl⟩
        exact abs_nonneg _)
    have hq : |q.2| = 0 := by linarith
    rcases List.mem_cons.mp hp with rfl | hp'
    · exact abs_eq_zero.mp hq
    · exact ih (by linarith) p hp'

theorem dictGet_cons (q : ℕ × ℚ) (t : List (ℕ × ℚ)) (k : ℕ) :
    dictGet (q :: t) k = if q.1 = k then q.2 else dictGet t k := by
  unfold dictGet
  rw [List.find?_cons]
  by_cases h : q.1 = k
  · simp [h]
  · simp [h]

theorem keys_dictSet (d : List (ℕ × ℚ)) (k : ℕ) (v : ℚ) :
    (dictSet d k v).map Prod.fst
      = if k ∈ d.map Prod.fst then d.map Prod.fst else d.map Prod.fst ++ [k] := by
  induction d with
  | nil => simp [dictSet]
  | cons q t ih =>
    by_cases h : q.1 = k
    · simp [dictSet, h]
    · simp only [dictSet, h, if_false, List.map_cons, ih, List.mem_cons]
      by_cases hk : k ∈ t.map Prod.fst
      · simp [hk, h, Ne.symm h]
      · simp [hk, h, Ne.symm h]

theorem mem_keys_dictSet {d : List (ℕ × ℚ)} {k : ℕ} {v : ℚ} {x : ℕ} :
    x ∈ (dictSet d k v).map Prod.fst ↔ x ∈ d.map Prod.fst ∨ x = k := by
  rw [keys_dictSet]
  by_cases h : k ∈ d.map Prod.fst
  · simp only [h, if_true]
    constructor
    · exact Or.inl
    · rintro (hx | rfl)
      · exact hx
      · exact h
  · simp [h]

theorem nodupKeys_dictSet {d : List (ℕ × ℚ)} (k : ℕ) (v : ℚ)
    (h : (d.map Prod.fst).Nodup) : ((dictSet d k v).map Prod.fst).Nodup := by
  rw [keys_dictSet]
  by_cases hk : k ∈ d.map Prod.fst
  · simpa [hk] using h
  · simp only [hk, if_false]
    rw [List.nodup_append]
    refine ⟨h, List.nodup_singleton k, ?_⟩
    intro a ha hb
    have : a = k := by simpa using hb
    exact hk (this ▸ ha)

theorem dictGet_dictSet (d : List (ℕ × ℚ)) (k : ℕ) (v : ℚ) (x : ℕ) :
    dictGet (dictSet d k v) x = if x = k then v else dictGet d x := by
  induction d with
  | nil =>
    show dictGet [(k, v)] x = _
    rw [dictGet_cons]
    by_cases h : x = k
    · simp [h, dictGet]
    · simp [h, Ne.symm h, dictGet]
  | cons q t ih =>
    by_cases h : q.1 = k
    · show dictGet (if q.1 = k then (q.1, v) :: t else _) x = _
      rw [if_pos h, dictGet_cons]
      by_cases hx : x = k
      · rw [if_pos (by rw [h, hx]), if_pos hx]
      · rw [if_neg (by rw [h]; exact Ne.symm hx), if_neg hx, dictGet_cons,
          if_neg (by rw [h]; exact Ne.symm hx)]
    · show dictGet (if q.1 = k then _ else q :: dictSet t k v) x = _
      rw [if_neg h, dictGet_cons, ih]
      by_cases hq : q.1 = x
      · have hxk : ¬ x = k := fun e => h (by rw [hq, e])
        rw [if_pos hq, if_neg hxk, dictGet_cons, if_pos hq]
      · rw [if_neg hq]
        by_cases hx : x = k
        · rw [if_pos hx, if_pos hx]
        · rw [if_neg hx, if_neg hx, dictGet_cons, if_neg hq]

theorem mem_keys_accumulate (w : ℚ) (items : List (ℕ × ℚ)) :
    ∀ (d : List (ℕ × ℚ)) (k : ℕ),
      k ∈ (accumulate w d items).map Prod.fst
        ↔ k ∈ d.map Prod.fst ∨ k ∈ items.map Prod.fst := by
  induction items with
  | nil => intro d k; simp [accumulate]
  | cons it rest ih =>
    intro d k
    show k ∈ (accumulate w (dictSet d it.1 (dictGet d it.1 + w * it.2)) rest).map Prod.fst ↔ _
    rw [ih]
    rw [show (k ∈ (dictSet d it.1 (dictGet d it.1 + w * it.2)).map Prod.fst)
          = (k ∈ d.map Prod.fst ∨ k = it.1) from propext mem_keys_dictSet]
    simp only [List.map_cons, List.mem_cons]
    tauto

theorem nodupKeys_accumulate (w : ℚ) (items : List (ℕ × ℚ)) :
    ∀ (d : List (ℕ × ℚ)), (d.map Prod.fst).Nodup
      → ((accumulate w d items).map Prod.fst).Nodup := by
  induction items with
  | nil => intro d h; exact h
  | cons it rest ih =>
    intro d h
    exact ih _ (nodupKeys_dictSet _ _ h)

theorem dictGet_accumulate_not_mem (w : ℚ) (items : List (ℕ × ℚ)) :
    ∀ (d : List (ℕ × ℚ)) (k : ℕ), k ∉ items.map Prod.fst
      → dictGet (accumulate w d items) k = dictGet d k := by
  induction items with
  | nil => intro d k _; rfl
  | cons it rest ih =>
    intro d k hk
    have hk1 : k ≠ it.1 := by
      intro e; exact hk (by simp [e])
    have hk2 : k ∉ rest.map Prod.fst := by
      intro e; exact hk (by simp [e])
    show dictGet (accumulate w (dictSet d it.1 (dictGet d it.1 + w * it.2)) rest) k = _
    rw [ih _ _ hk2, dictGet_dictSet, if_neg hk1]

theorem dictGet_accumulate (w : ℚ) (items : List (ℕ × ℚ)) :
    ∀ (d : List (ℕ × ℚ)) (k : ℕ), (items.map Prod.fst).Nodup
      → dictGet (accumulate w d items) k = dictGet d k + w * dictGet items k := by
  induction items with
  | nil => intro d k _; show dictGet d k = _; simp [dictGet]
  | cons it rest ih =>
    intro d k hnd
    rw [List.map_cons] at hnd
    have h1 : it.1 ∉ rest.map Prod.fst := (List.nodup_cons.mp hnd).1
    have h2 : (rest.map Prod.fst).Nodup := (List.nodup_cons.mp hnd).2
    show dictGet (accumulate w (dictSet d it.1 (dictGet d it.1 + w * it.2)) rest) k = _
    by_cases hk : k = it.1
    · subst hk
      rw [dictGet_accumulate_not_mem w rest _ _ h1, dictGet_dictSet, if_pos rfl,
        dictGet_cons, if_pos rfl]
    · rw [ih _ _ h2, dictGet_dictSet, if_neg hk, dictGet_cons,
        if_neg (fun e => hk e.symm)]

theorem dictGet_of_mem {d : List (ℕ × ℚ)} (hnd : (d.map Prod.fst).Nodup)
    {k : ℕ} {v : ℚ} (h : (k, v) ∈ d) : dictGet d k = v := by
  induction d with
  | nil => exact absurd h (by simp)
  | cons q t ih =>
    rw [List.map_cons] at hnd
    have hq := List.nodup_cons.mp hnd
    rcases List.mem_cons.mp h with rfl | h'
    · rw [dictGet_cons, if_pos rfl]
    · have hk : k ∈ t.map Prod.fst := List.mem_map.mpr ⟨(k, v), h', rfl⟩
      have hne : q.1 ≠ k := fun e => hq.1 (e ▸ hk)
      rw [dictGet_cons, if_neg hne]
      exact ih hq.2 h'

/-- The guarded running-maximum loop of `calculate_content_score` equals a
fold of `max` over the filtered, mapped list. -/
theorem foldl_max_filter (f : ℕ → ℚ) (c : ℕ → Prop) [DecidablePred c] :
    ∀ (l : List ℕ) (a : ℚ),
      l.foldl (fun m h => if c h then max m (f h) else m) a
        = ((l.filter (fun h => c h)).map f).foldl max a := by
  intro l
  induction l with
  | nil => intro a; rfl
  | cons x t ih =>
    intro a
    by_cases h : c x
    · rw [List.foldl_cons, if_pos h, List.filter_cons_of_pos (by simpa using h),
        List.map_cons, List.foldl_cons, ih]
    · rw [List.foldl_cons, if_neg h, List.filter_cons_of_neg (by simpa using h), ih]

/-- Folding `max` from `0` over a list of non-negative rationals gives the
list maximum (`0` for the empty list). -/
theorem foldl_max_nonneg (l : List ℚ) (hl : ∀ x ∈ l, 0 ≤ x) :
    l.foldl max 0 = l.max?.getD 0 := by
  cases l with
  | nil => rfl
  | cons x t =>
    rw [List.max?_cons', Option.getD_some, List.foldl_cons,
      max_eq_right (hl x (by simp))]

theorem sqNorm_nil : sqNorm [] = 0 := rfl

theorem sqNorm_cons (x : ℝ) (t : List ℝ) : sqNorm (x :: t) = x * x + sqNorm t := by
  simp [sqNorm, dotR]

theorem sqNorm_nonneg (a : List ℝ) : 0 ≤ sqNorm a := by
  induction a with
  | nil => simp [sqNorm_nil]
  | cons x t ih =>
    rw [sqNorm_cons]
    have := mul_self_nonneg x
    linarith

/-- A vector of squared norm zero has zero dot product with anything. -/
theorem dotR_eq_zero_of_sqNorm_left :
    ∀ (a b : List ℝ), sqNorm a = 0 → dotR a b = 0 := by
  intro a
  induction a with
  | nil => intro b _; simp [dotR]
  | cons x t ih =>
    intro b h
    cases b with
    | nil => simp [dotR]
    | cons y u =>
      rw [sqNorm_cons] at h
      have h1 := mul_self_nonneg x
      have h2 := sqNorm_nonneg t
      have hx : x = 0 := by nlinarith
      have ht : sqNorm t = 0 := by linarith
      show (List.zipWith (· * ·) (x :: t) (y :: u)).sum = 0
      rw [List.zipWith_cons_cons, List.sum_cons]
      have := ih u ht
      rw [hx]
      simp only [zero_mul, zero_add]
      exact this

theorem dotR_comm : ∀ (a b : List ℝ), dotR a b = dotR b a := by
  intro a
  induction a with
  | nil => intro b; cases b <;> simp [dotR]
  | cons x t ih =>
    intro b
    cases b with
    | nil => simp [dotR]
    | cons y u =>
      show (List.zipWith (· * ·) (x :: t) (y :: u)).sum
        = (List.zipWith (· * ·) (y :: u) (x :: t)).sum
      rw [List.zipWith_cons_cons, List.zipWith_cons_cons, List.sum_cons, List.sum_cons,
        mul_comm x y]
      have := ih u
      simp only [dotR] at this
      rw [this]

/-- Cauchy–Schwarz for list dot products (no length hypothesis is needed:
`zipWith` truncates while the extra squared entries only enlarge the right
side). -/
theorem dotR_sq_le_sqNorm_mul :
    ∀ (a b : List ℝ), dotR a b ^ 2 ≤ sqNorm a * sqNorm b := by
  intro a
  induction a with
  | nil =>
    intro b
    have h0 : dotR [] b = 0 := by simp [dotR]
    rw [h0, sqNorm_nil, zero_mul]
    norm_num
  | cons x t ih =>
    intro b
    cases b with
    | nil =>
      have h0 : dotR (x :: t) [] = 0 := by simp [dotR]
      rw [h0, sqNorm_nil, mul_zero]
      norm_num
    | cons y u =>
      have hA := sqNorm_nonneg t
      have hB := sqNorm_nonneg u
      have hS := ih u
      show dotR (x :: t) (y :: u) ^ 2 ≤ sqNorm (x :: t) * sqNorm (y :: u)
      have hd : dotR (x :: t) (y :: u) = x * y + dotR t u := by
        show (List.zipWith (· * ·) (x :: t) (y :: u)).sum = _
        rw [List.zipWith_cons_cons, List.sum_cons]
        rfl
      rw [hd, sqNorm_cons, sqNorm_cons]
      rcases eq_or_lt_of_le hB with hB0 | hBpos
      · have hS0 : dotR t u = 0 := by
          have : dotR t u ^ 2 ≤ 0 := by rw [← hB0] at hS; nlinarith
          nlinarith [sq_nonneg (dotR t u)]
        rw [hS0, ← hB0]
        nlinarith [mul_self_nonneg x, mul_self_nonneg y, mul_nonneg hA (mul_self_nonneg y)]
      · nlinarith [sq_nonneg (x * sqNorm u - y * dotR t u),
          mul_nonneg (sq_nonneg y) (sub_nonneg.mpr hS),
          mul_nonneg hA hB, sq_nonneg (x * y)]

/-! ## Claim theorems -/

/-- C3: for every trained `CollaborativeFilter` state, user index and
candidate item, the predicted rating equals
`Σ(sim_i · rating_i) / Σ|sim_i|` over the selected top-50 neighbours
restricted to those whose stored rating for the item is `> 0` (the quotient
read with the convention `x / 0 = 0`, which agrees with the code because a
zero denominator forces a zero numerator — third conjunct); it is `0` when no
selected neighbour rated the item (second conjunct); and the division branch
is executed only under the guard `similarity_sum ≠ 0`, so no division by
zero is ever performed. -/
theorem predictRating_weighted_average (s : CFState) (userIdx bookId : ℕ) :
    predictRating s bookId (getSimilarUsers s userIdx 50)
        = (((getSimilarUsers s userIdx 50).filter
              (fun p => 0 < s.rating p.1 bookId)).map
            (fun p => p.2 * s.rating p.1 bookId)).sum
          / (((getSimilarUsers s userIdx 50).filter
              (fun p => 0 < s.rating p.1 bookId)).map (fun p => |p.2|)).sum
    ∧ ((getSimilarUsers s userIdx 50).filter (fun p => 0 < s.rating p.1 bookId) = []
        → predictRating s bookId (getSimilarUsers s userIdx 50) = 0)
    ∧ ((((getSimilarUsers s userIdx 50).filter
            (fun p => 0 < s.rating p.1 bookId)).map (fun p => |p.2|)).sum = 0
        → (((getSimilarUsers s userIdx 50).filter
              (fun p => 0 < s.rating p.1 bookId)).map
            (fun p => p.2 * s.rating p.1 bookId)).sum = 0) := by
  have hwz : (((getSimilarUsers s userIdx 50).filter
        (fun p => 0 < s.rating p.1 bookId)).map (fun p => |p.2|)).sum = 0
      → (((getSimilarUsers s userIdx 50).filter
            (fun p => 0 < s.rating p.1 bookId)).map
          (fun p => p.2 * s.rating p.1 bookId)).sum = 0 := by
    intro h
    apply List.sum_eq_zero
    intro x hx
    rcases List.mem_map.mp hx with ⟨p, hp, rfl⟩
    rw [absSum_eq_zero h p hp, zero_mul]
  have hpr : predictRating s bookId (getSimilarUsers s userIdx 50)
      = if (((getSimilarUsers s userIdx 50).filter
            (fun p => 0 < s.rating p.1 bookId)).map (fun p => |p.2|)).sum = 0
        then 0
        else (((getSimilarUsers s userIdx 50).filter
              (fun p => 0 < s.rating p.1 bookId)).map
            (fun p => p.2 * s.rating p.1 bookId)).sum
          / (((getSimilarUsers s userIdx 50).filter
              (fun p => 0 < s.rating p.1 bookId)).map (fun p => |p.2|)).sum := by
    unfold predictRating
    rw [predict_foldl s bookId (getSimilarUsers s userIdx 50) 0 0]
    simp only [zero_add]
  refine ⟨?_, ?_, hwz⟩
  · rw [hpr]
    by_cases hz : (((getSimilarUsers s userIdx 50).filter
        (fun p => 0 < s.rating p.1 bookId)).map (fun p => |p.2|)).sum = 0
    · rw [if_pos hz, hz, div_zero]
    · rw [if_neg hz]
  · intro h
    rw [hpr, h]
    simp

/-- Witness for C3 at a concrete trained state: user 0 of `exCFState` has no
neighbours, so no neighbour rated book 3 and the prediction is `0`. -/
theorem predictRating_weighted_average_witness :
    predictRating exCFState 3 (getSimilarUsers exCFState 0 50) = 0 :=
  (predictRating_weighted_average exCFState 0 3).2.1 (by
    norm_num [getSimilarUsers, exCFState, sortDescBy, List.insertionSort,
      List.orderedInsert, pivotUsers, exData, sortedDedup, List.dedup])

/-- C9: the collaborative recommender only ever emits items whose stored
rating for the requesting user is `0` — an item with a nonzero rating in the
training matrix never appears in the output. -/
theorem collab_excludes_rated (s : CFState) (userId n : ℕ) (out : List CollabRec)
    (h : getUserRecommendations (some s) userId n = Except.ok out) :
    ∀ r ∈ out, s.rating (s.users.indexOf userId) r.bookId = 0 := by
  intro r hr
  simp only [getUserRecommendations] at h
  by_cases hu : userId ∈ s.users
  · rw [if_pos hu] at h
    have hX := Except.ok.inj h
    rw [← hX] at hr
    have hr' := mem_sortDescBy.mp (List.mem_of_mem_take hr)
    rcases List.mem_map.mp hr' with ⟨b, hb, rfl⟩
    exact of_decide_eq_true (List.mem_filter.mp hb).2
  · rw [if_neg hu] at h
    cases h

/-- Witness for C9 at a concrete trained state and request. -/
theorem collab_excludes_rated_witness :
    exCFState.rating (exCFState.users.indexOf 1) 3 = 0 :=
  collab_excludes_rated exCFState 1 10 [⟨3, 0⟩]
    (by
      norm_num [getUserRecommendations, exCFState, pivotUsers, pivotBooks, pivotCell,
        exData, sortedDedup, List.dedup, List.indexOf, List.findIdx, List.findIdx.go,
        getSimilarUsers, predictRating, sortDescBy, List.insertionSort,
        List.orderedInsert, List.find?])
    ⟨3, 0⟩ (by simp)

/-- C10: `train` rebuilds every model field from the ratings data alone (the
factorization being deterministic, seeded with `random_state=42`, is the
function argument `simF`), so training twice with the same input produces
the same model as training once, and `recommend` output after a double train
equals that after a single train. -/
theorem train_deterministic_idempotent (simF : List RatingRow → ℕ → ℕ → ℚ)
    (s₀ s₁ : Option CFState) (data : List RatingRow) (userId n : ℕ) :
    trainCF simF s₀ data = trainCF simF s₁ data
    ∧ getUserRecommendations (trainCF simF (trainCF simF s₀ data) data) userId n
        = getUserRecommendations (trainCF simF s₀ data) userId n :=
  ⟨rfl, rfl⟩

/-- C8 (amended): an untrained `CollaborativeFilter` query fails fast with
`ValueError("Model not trained yet")`; an untrained `ContentBasedFilter`
performs no such check and instead fails with the `AttributeError` raised by
iterating `None` — a generic crash, not a dedicated untrained-model error. -/
theorem untrained_query_errors (userId n : ℕ) (p : Profile) (m : ℕ) :
    getUserRecommendations none userId n = Except.error PyErr.valueError
    ∧ getContentRecommendations none p m = Except.error PyErr.attributeError :=
  ⟨rfl, rfl⟩

/-- C8 counterexample: the two untrained query methods do not fail with one
distinct untrained-model error kind — the content filter's error is the
generic `AttributeError`, different from the collaborative filter's
`ValueError`. -/
theorem untrained_error_kinds_differ :
    getContentRecommendations none ⟨[], [], []⟩ 10 = Except.error PyErr.attributeError
    ∧ getUserRecommendations none 1 10 = Except.error PyErr.valueError
    ∧ PyErr.attributeError ≠ PyErr.valueError :=
  ⟨rfl, rfl, by decide⟩

/-- C2 (amended): for a user id absent from the training matrix the
collaborative recommender raises the `KeyError` coming from
`index.get_loc` (there is no `UnknownUserError` class in the code), and
`HybridRecommendationEngine.get_recommendations` does not catch it: the same
`KeyError` propagates out of the hybrid request instead of an empty
collaborative list being substituted. -/
theorem unknown_user_error_propagates (s : CFState) (cb : Option CBState)
    (social : SocialRecommender) (userId : ℕ) (p : Profile) (n m : ℕ)
    (h : userId ∉ s.users) :
    getUserRecommendations (some s) userId m = Except.error PyErr.keyError
    ∧ getRecommendations ⟨some s, cb, social⟩ userId p n = Except.error PyErr.keyError := by
  have h1 : ∀ k, getUserRecommendations (some s) userId k = Except.error PyErr.keyError := by
    intro k
    simp only [getUserRecommendations]
    rw [if_neg h]
  refine ⟨h1 m, ?_⟩
  unfold getRecommendations
  rw [h1 (n * 2)]

/-- Witness for C2 (amended) at a concrete trained engine and the unknown
user id 2. -/
theorem unknown_user_error_propagates_witness :
    getUserRecommendations exCF 2 10 = Except.error PyErr.keyError
    ∧ getRecommendations exEngine 2 exProfile 5 = Except.error PyErr.keyError :=
  unknown_user_error_propagates (exCFState) (some exCB) (fun _ _ => []) 2 exProfile 5 10
    (by norm_num [exCFState, pivotUsers, exData, sortedDedup, List.dedup,
      List.insertionSort, List.orderedInsert])

/-- C2 counterexample: at the trained engine `exEngine` the hybrid request
for the unknown user 2 raises (`KeyError`) rather than returning a ranked
list built from the content and social channels. -/
theorem hybrid_raises_for_unknown_user :
    getRecommendations exEngine 2 exProfile 5 = Except.error PyErr.keyError := by
  have h : getUserRecommendations exEngine.collaborativeFilter 2 (5 * 2)
      = Except.error PyErr.keyError := by
    norm_num [getUserRecommendations, exEngine, exCF, trainCF, exSimF, pivotUsers,
      exData, sortedDedup, List.dedup, List.insertionSort, List.orderedInsert]
  unfold getRecommendations
  rw [h]

/-- The axis indices produced by the pivot are strictly increasing (sorted
ascending with no duplicates). -/
theorem sortedDedup_pairwise_lt (l : List ℕ) : (sortedDedup l).Pairwise (· < ·) := by
  have hs : (sortedDedup l).Pairwise (· ≤ ·) := List.sorted_insertionSort _ _
  have hnd : (sortedDedup l).Nodup :=
    ((List.perm_insertionSort _ _).nodup_iff).mpr (List.nodup_dedup l)
  exact (hs.and hnd).imp (fun h => lt_of_le_of_ne h.1 h.2)

/-- C7: for every trained collaborative model and successful request, the
output is sorted descending by predicted rating with ties broken by
`book_id` ascending (the books are iterated in ascending column order and
the sort is stable), and its length is at most the requested `n`. -/
theorem collab_output_sorted_tiebreak (simF : List RatingRow → ℕ → ℕ → ℚ)
    (prior : Option CFState) (data : List RatingRow) (userId n : ℕ)
    (out : List CollabRec)
    (h : getUserRecommendations (trainCF simF prior data) userId n = Except.ok out) :
    out.Pairwise (fun a b => b.predictedRating < a.predictedRating
      ∨ (a.predictedRating = b.predictedRating ∧ a.bookId < b.bookId))
    ∧ out.length ≤ n := by
  simp only [trainCF, getUserRecommendations] at h
  by_cases hu : userId ∈ pivotUsers data
  · rw [if_pos hu] at h
    have hX := Except.ok.inj h
    constructor
    · rw [← hX]
      refine List.Pairwise.sublist (List.take_sublist _ _)
        (sortDescBy_pairwise_tiebreak CollabRec.predictedRating CollabRec.bookId ?_)
      apply List.pairwise_map.mpr
      exact ((sortedDedup_pairwise_lt _).filter _).imp (fun h => h)
    · rw [← hX, List.length_take]
      exact min_le_left _ _
  · rw [if_neg hu] at h
    cases h

/-- Witness for C7: the §8 scenario ratings, user 1, `n = 1`. -/
theorem collab_output_sorted_tiebreak_witness :
    ([⟨3, (5:ℚ)⟩] : List CollabRec).Pairwise
      (fun a b => b.predictedRating < a.predictedRating
        ∨ (a.predictedRating = b.predictedRating ∧ a.bookId < b.bookId))
    ∧ ([⟨3, (5:ℚ)⟩] : List CollabRec).length ≤ 1 :=
  collab_output_sorted_tiebreak exSimF none exData2 1 1 [⟨3, 5⟩] (by
    norm_num [getUserRecommendations, trainCF, exSimF, exData2, pivotUsers, pivotBooks,
      pivotCell, sortedDedup, List.dedup, List.insertionSort, List.orderedInsert,
      getSimilarUsers, predictRating, sortDescBy, List.find?, List.indexOf,
      List.findIdx, List.findIdx.go, List.range, List.range.loop])

/-- C6: for a trained content model (whose similarity entries, being cosine
similarities of TF-IDF vectors, are non-negative), a catalog item outside
the reading history scores
`0.4·[genre preferred] + 0.3·[author favourite] + 0.3·max similarity` to the
history items present in the catalog, the last term being `0` when the
history is empty or none of its ids are in the catalog. -/
theorem content_score_formula (s : CBState) (b : Book) (p : Profile)
    (hb : b ∈ s.books) (hnh : b.id ∉ p.readingHistory)
    (hsim : ∀ i j, 0 ≤ s.sim i j) :
    calculateContentScore s b p
      = (if b.genre ∈ p.preferredGenres then (2:ℚ)/5 else 0)
        + (if b.author ∈ p.favoriteAuthors then (3:ℚ)/10 else 0)
        + 3/10 * (((p.readingHistory.filter (fun h => h ∈ s.books.map Book.id)).map
            (fun h => s.sim (bookIdx s b.id) (bookIdx s h))).max?.getD 0) := by
  unfold calculateContentScore
  by_cases hemp : p.readingHistory.isEmpty
  · have he : p.readingHistory = [] := List.isEmpty_iff.mp hemp
    rw [if_pos hemp, he]
    simp
  · rw [if_neg hemp]
    rw [foldl_max_filter (fun h => s.sim (bookIdx s b.id) (bookIdx s h))
      (fun h => h ∈ s.books.map Book.id) p.readingHistory 0]
    rw [foldl_max_nonneg _ (by
      intro x hx
      rcases List.mem_map.mp hx with ⟨h', _, rfl⟩
      exact hsim _ _)]

/-- Witness for C6 at a concrete two-book catalog: the scored book matches
the favourite author but not the preferred genre, and its best history
similarity is `1/2`, so the score is `0 + 0.3 + 0.3·(1/2) = 9/20`. -/
theorem content_score_formula_witness :
    calculateContentScore exCB2 ⟨2, "b", "Horror"⟩ exProfile2 = 9/20 := by
  rw [content_score_formula exCB2 ⟨2, "b", "Horror"⟩ exProfile2
    (by norm_num [exCB2])
    (by norm_num [exProfile2])
    (by intro i j; dsimp only [exCB2]; split <;> norm_num)]
  have e1 : ¬ ("Horror" = "Romance") := by decide
  have e2 : bookIdx exCB2 2 = 1 := by rfl
  have e3 : bookIdx exCB2 1 = 0 := by rfl
  have e4 : exCB2.books.map Book.id = [1, 2] := by rfl
  have e6 : exCB2.sim 1 0 = 1/2 := by norm_num [exCB2]
  norm_num [exProfile2, e1, e2, e3, e4, e6, List.max?]

/-- Concrete evaluation of the trained example engine: the collaborative
channel proposes book 3 (unrated, i.e. rated `0`, by user 1), the content
channel proposes book 1, fusion keeps both. -/
theorem exEngine_eval :
    getRecommendations exEngine 1 exProfile 5 = Except.ok [⟨3, 0⟩, ⟨1, 0⟩] := by
  have hco : getUserRecommendations exEngine.collaborativeFilter 1 (5 * 2)
      = Except.ok [⟨3, 0⟩] := by
    norm_num [exEngine, exCF, trainCF, exSimF, exData, pivotUsers, pivotBooks, pivotCell,
      sortedDedup, List.dedup, getUserRecommendations, getSimilarUsers, predictRating,
      sortDescBy, List.insertionSort, List.orderedInsert, List.find?, List.indexOf,
      List.findIdx, List.findIdx.go, List.range, List.range.loop]
  have hct : getContentRecommendations exEngine.contentFilter exProfile (5 * 2)
      = Except.ok [⟨1, 0⟩] := by
    norm_num [exEngine, exCB, getContentRecommendations, calculateContentScore,
      exProfile, bookIdx, sortDescBy, List.insertionSort, List.orderedInsert]
  unfold getRecommendations
  rw [hco, hct]
  norm_num [exEngine, combineRecommendations, accumulate, dictSet, dictGet, List.find?,
    sortDescBy, List.insertionSort, List.orderedInsert]

/-- C4 (amended): a successful hybrid request never returns more than `n`
items (the reading-history exclusion claimed alongside does not hold; see
the counterexample). -/
theorem hybrid_output_length_le (e : HybridEngine) (userId : ℕ) (p : Profile) (n : ℕ)
    (out : List HybridRec) (h : getRecommendations e userId p n = Except.ok out) :
    out.length ≤ n := by
  unfold getRecommendations at h
  cases hc : getUserRecommendations e.collaborativeFilter userId (n * 2) with
  | error er =>
    rw [hc] at h
    cases h
  | ok collab =>
    rw [hc] at h
    cases hct : getContentRecommendations e.contentFilter p (n * 2) with
    | error er =>
      rw [hct] at h
      cases h
    | ok content =>
      rw [hct] at h
      have hX := Except.ok.inj h
      rw [← hX, List.length_take]
      exact min_le_left _ _

/-- Witness for C4 (amended) at the trained example engine. -/
theorem hybrid_output_length_le_witness :
    ([⟨3, (0:ℚ)⟩, ⟨1, 0⟩] : List HybridRec).length ≤ 5 :=
  hybrid_output_length_le exEngine 1 exProfile 5 [⟨3, 0⟩, ⟨1, 0⟩] exEngine_eval

/-- C4 counterexample: at the trained engine `exEngine`, book 3 sits in the
profile's reading history, yet the hybrid output contains it — the
collaborative channel only excludes books the user rated nonzero, not the
profile's reading history. -/
theorem hybrid_returns_history_item :
    3 ∈ exProfile.readingHistory
    ∧ getRecommendations exEngine 1 exProfile 5 = Except.ok [⟨3, 0⟩, ⟨1, 0⟩]
    ∧ 3 ∈ (([⟨3, (0:ℚ)⟩, ⟨1, 0⟩] : List HybridRec).map HybridRec.bookId) := by
  exact ⟨by norm_num [exProfile], exEngine_eval, by decide⟩

/-- C5: the cosine-similarity primitive shared by both filters returns `0`
whenever either vector has zero (squared) norm — no division by zero — and
every similarity value is bounded by `1` in absolute value (in particular
finite; the spec range is `[-1, 1]`). -/
theorem cosineSim_zero_and_bounded (a b : List ℝ) :
    (sqNorm a = 0 ∨ sqNorm b = 0 → cosineSim a b = 0) ∧ |cosineSim a b| ≤ 1 := by
  have hzero : sqNorm a = 0 ∨ sqNorm b = 0 → cosineSim a b = 0 := by
    rintro (h | h)
    · unfold cosineSim
      rw [dotR_eq_zero_of_sqNorm_left a b h, zero_div]
    · unfold cosineSim
      rw [dotR_comm, dotR_eq_zero_of_sqNorm_left b a h, zero_div]
  refine ⟨hzero, ?_⟩
  by_cases ha : sqNorm a = 0
  · rw [hzero (Or.inl ha)]
    norm_num
  by_cases hb : sqNorm b = 0
  · rw [hzero (Or.inr hb)]
    norm_num
  have hA : 0 < sqNorm a := lt_of_le_of_ne (sqNorm_nonneg a) (Ne.symm ha)
  have hB : 0 < sqNorm b := lt_of_le_of_ne (sqNorm_nonneg b) (Ne.symm hb)
  have hsqA : 0 < Real.sqrt (sqNorm a) := Real.sqrt_pos.mpr hA
  have hsqB : 0 < Real.sqrt (sqNorm b) := Real.sqrt_pos.mpr hB
  unfold cosineSim safeNorm
  rw [if_neg ha, if_neg hb, abs_div, abs_of_pos (mul_pos hsqA hsqB),
    div_le_one (mul_pos hsqA hsqB), ← Real.sqrt_sq_eq_abs,
    ← Real.sqrt_mul (le_of_lt hA)]
  exact Real.sqrt_le_sqrt (by
    have := dotR_sq_le_sqNorm_mul a b
    nlinarith [sq_abs (dotR a b)])

/-- Witness for C5: the zero vector has similarity `0` with `[3, 4]`. -/
theorem cosineSim_zero_and_bounded_witness :
    cosineSim [0, 0] [3, 4] = 0 :=
  (cosineSim_zero_and_bounded [0, 0] [3, 4]).1
    (Or.inl (by norm_num [sqNorm, dotR]))

/-- C1 (amended): `combine_recommendations` produces exactly one entry per
`book_id` occurring in any input list, with total
`0.4·predicted_rating + 0.35·content_score + 0.25·social_score` where a
book missing from a list contributes `0` (`dictGet` is `dict.get(·, 0)` on
the association list of one input), and the output is sorted descending by
total score.  Ties between equal totals keep dictionary insertion order
(first appearance across collab, then content, then social), **not**
`book_id` ascending — see the counterexample. -/
theorem combine_totals_and_sorted (collab : List CollabRec) (content : List ContentRec)
    (social : List SocialRec)
    (h1 : (collab.map CollabRec.bookId).Nodup)
    (h2 : (content.map ContentRec.bookId).Nodup)
    (h3 : (social.map SocialRec.bookId).Nodup) :
    ((combineRecommendations collab content social).map HybridRec.bookId).Nodup
    ∧ (∀ k, k ∈ (combineRecommendations collab content social).map HybridRec.bookId
        ↔ (k ∈ collab.map CollabRec.bookId ∨ k ∈ content.map ContentRec.bookId
            ∨ k ∈ social.map SocialRec.bookId))
    ∧ (∀ r ∈ combineRecommendations collab content social,
        r.combinedScore
          = 2/5 * dictGet (collab.map (fun c => (c.bookId, c.predictedRating))) r.bookId
            + 7/20 * dictGet (content.map (fun c => (c.bookId, c.contentScore))) r.bookId
            + 1/4 * dictGet (social.map (fun c => (c.bookId, c.socialScore))) r.bookId)
    ∧ (combineRecommendations collab content social).Pairwise
        (fun a b => b.combinedScore ≤ a.combinedScore) := by
  have hkeys1 : (collab.map (fun c => (c.bookId, c.predictedRating))).map Prod.fst
      = collab.map CollabRec.bookId := by
    rw [List.map_map]; rfl
  have hkeys2 : (content.map (fun c => (c.bookId, c.contentScore))).map Prod.fst
      = content.map ContentRec.bookId := by
    rw [List.map_map]; rfl
  have hkeys3 : (social.map (fun c => (c.bookId, c.socialScore))).map Prod.fst
      = social.map SocialRec.bookId := by
    rw [List.map_map]; rfl
  have hcomb : combineRecommendations collab content social
      = sortDescBy HybridRec.combinedScore
          ((accumulate (1/4)
              (accumulate (7/20)
                (accumulate (2/5) []
                  (collab.map (fun c => (c.bookId, c.predictedRating))))
                (content.map (fun c => (c.bookId, c.contentScore))))
              (social.map (fun c => (c.bookId, c.socialScore)))).map
            (fun p => { bookId := p.1, combinedScore := p.2 })) := rfl
  set P1 := collab.map (fun c => (c.bookId, c.predictedRating)) with hP1
  set P2 := content.map (fun c => (c.bookId, c.contentScore)) with hP2
  set P3 := social.map (fun c => (c.bookId, c.socialScore)) with hP3
  set d3 := accumulate (1/4) (accumulate (7/20) (accumulate (2/5) [] P1) P2) P3 with hd3
  have hnd0 : (([] : List (ℕ × ℚ)).map Prod.fst).Nodup := by simp
  have hnd3 : (d3.map Prod.fst).Nodup := by
    rw [hd3]
    exact nodupKeys_accumulate _ _ _
      (nodupKeys_accumulate _ _ _ (nodupKeys_accumulate _ _ _ hnd0))
  have hmem3 : ∀ k, k ∈ d3.map Prod.fst
      ↔ (k ∈ collab.map CollabRec.bookId ∨ k ∈ content.map ContentRec.bookId
          ∨ k ∈ social.map SocialRec.bookId) := by
    intro k
    rw [hd3, mem_keys_accumulate, mem_keys_accumulate, mem_keys_accumulate,
      hkeys1, hkeys2, hkeys3]
    simp only [List.map_nil, List.not_mem_nil, false_or]
    tauto
  have hget3 : ∀ k, dictGet d3 k
      = 2/5 * dictGet P1 k + 7/20 * dictGet P2 k + 1/4 * dictGet P3 k := by
    intro k
    rw [hd3, dictGet_accumulate _ _ _ _ (by rw [hP3, hkeys3]; exact h3),
      dictGet_accumulate _ _ _ _ (by rw [hP2, hkeys2]; exact h2),
      dictGet_accumulate _ _ _ _ (by rw [hP1, hkeys1]; exact h1)]
    show dictGet [] k + _ + _ + _ = _
    rw [show dictGet [] k = 0 from rfl, zero_add]
  have hidmap : (((d3.map (fun p => ({ bookId := p.1, combinedScore := p.2 } : HybridRec))).map
      HybridRec.bookId)) = d3.map Prod.fst := by
    rw [List.map_map]; rfl
  have hidperm : List.Perm ((combineRecommendations collab content social).map
      HybridRec.bookId) (d3.map Prod.fst) := by
    rw [hcomb, ← hidmap]
    exact (sortDescBy_perm _ _).map _
  refine ⟨hidperm.nodup_iff.mpr hnd3, ?_, ?_, ?_⟩
  · intro k
    rw [hidperm.mem_iff]
    exact hmem3 k
  · intro r hr
    rw [hcomb] at hr
    rcases List.mem_map.mp (mem_sortDescBy.mp hr) with ⟨pr, hpr, rfl⟩
    show pr.2 = 2/5 * dictGet P1 pr.1 + 7/20 * dictGet P2 pr.1 + 1/4 * dictGet P3 pr.1
    rw [← hget3]
    exact (dictGet_of_mem hnd3 (by simpa using hpr)).symm
  · rw [hcomb]
    exact sortDescBy_sorted _ _

/-- Witness for C1 (amended) on concrete duplicate-free inputs. -/
theorem combine_totals_and_sorted_witness :
    (combineRecommendations [(⟨1, 2⟩ : CollabRec)] [(⟨2, 1⟩ : ContentRec)] []).Pairwise
      (fun a b => b.combinedScore ≤ a.combinedScore) :=
  (combine_totals_and_sorted [⟨1, 2⟩] [⟨2, 1⟩] []
    (by decide) (by decide) (by decide)).2.2.2

/-- C1 counterexample: with one collaborative entry (book 2, rating 1) and
one content entry (book 1, score 8/7), both totals are `2/5`, but the
output lists book 2 before book 1 — descending order holds, while the
claimed `item_id`-ascending tie-break does not: the tie is resolved by
dictionary insertion order. -/
theorem combine_tie_breaks_by_insertion_not_id :
    combineRecommendations [⟨2, 1⟩] [⟨1, 8/7⟩] [] = [⟨2, 2/5⟩, ⟨1, 2/5⟩]
    ∧ ¬ (([⟨2, (2:ℚ)/5⟩, ⟨1, 2/5⟩] : List HybridRec).Pairwise
          (fun a b => b.combinedScore < a.combinedScore
            ∨ (a.combinedScore = b.combinedScore ∧ a.bookId < b.bookId))) := by
  constructor
  · norm_num [combineRecommendations, accumulate, dictSet, dictGet, sortDescBy,
      List.insertionSort, List.orderedInsert, List.find?]
  · intro hp
    have h2 := (List.pairwise_cons.mp hp).1 ⟨1, 2/5⟩ (by simp)
    rcases h2 with h | h
    · exact absurd h (by norm_num)
    · exact absurd h.2 (by norm_num)

end StoryVerse
